import Mathlib

/-!
Verification development for the incremental listing-synchronization pipeline
implemented in `src/bazaraki_lambda_scraper.js`.

The JavaScript source is embedded shallowly: every function that a claim
depends on is translated into an executable Lean definition that follows the
source line by line.  JavaScript strings are modelled by `String` / `List Char`
(the inputs involved are ASCII, where JS UTF-16 lengths and Lean char counts
agree), JS `Set` objects by insertion-ordered duplicate-free lists, JS plain
objects used as maps by association lists with last-write-wins lookup, and
`async` HTTP calls by explicit oracle functions (`String → Option Page`,
`String → Option DetailPage`) where `none` models a failed fetch (network
error, timeout, or a thrown parse error).

Note on duplicate declarations in the source: the file declares `extractAdId`
three times (lines 644, 942 and 1445) and `extractListingDetails` twice
(lines 695 and 802).  JavaScript function hoisting makes the *last*
declaration of each name the effective one, so the embedding models
`extractAdId` from lines 1445-1463 and `extractListingDetails` from lines
802-930.
-/

namespace ImmoScraper

set_option maxRecDepth 8192

/-- Maximal leading run of decimal digits of a character list; models the
greedy `\d+` / `\d*` parts of the regexes in the scraper. -/
def takeDigits : List Char → List Char
  | [] => []
  | c :: cs => if c.isDigit then c :: takeDigits cs else []

/-- Remainder after the maximal leading digit run. -/
def dropDigits : List Char → List Char
  | [] => []
  | c :: cs => if c.isDigit then dropDigits cs else c :: cs

/-- Whether `s` starts with the pattern `p` (character-wise). -/
def startsWithL : List Char → List Char → Bool
  | _, [] => true
  | [], _ :: _ => false
  | c :: cs, p :: ps => c == p && startsWithL cs ps

/-- Whether `pat` occurs as a contiguous substring of `s`; models the
JavaScript `String.prototype.includes`. -/
def containsSub (pat : List Char) : List Char → Bool
  | [] => pat.isEmpty
  | c :: cs => startsWithL (c :: cs) pat || containsSub pat cs

/-- Leftmost match of the regex `\/adv\/(\d+)_` (line 1450): an occurrence of
`/adv/` followed by at least one digit whose maximal digit run is followed by
`_`; the captured group is that digit run. -/
def matchAdvUnderscore : List Char → Option (List Char)
  | [] => none
  | c :: cs =>
    if startsWithL (c :: cs) "/adv/".toList then
      if !(takeDigits (cs.drop 4)).isEmpty
          && (dropDigits (cs.drop 4)).head? == some '_' then
        some (takeDigits (cs.drop 4))
      else matchAdvUnderscore cs
    else matchAdvUnderscore cs

/-- Match of the end-anchored regex `\/(\d+)\/?$` (line 1451): the string ends
with `/` + digits + an optional final `/`; the captured group is the digit
run. -/
def trailingTail (s : List Char) : List Char :=
  if s.reverse.head? == some '/' then s.reverse.tail else s.reverse

def matchTrailingNum (s : List Char) : Option (List Char) :=
  if !(takeDigits (trailingTail s)).isEmpty
      && (dropDigits (trailingTail s)).head? == some '/' then
    some (takeDigits (trailingTail s)).reverse
  else none

/-- Leftmost match of the regex `id=(\d+)` (line 1452). -/
def matchIdParam : List Char → Option (List Char)
  | [] => none
  | c :: cs =>
    if startsWithL (c :: cs) "id=".toList then
      if !(takeDigits (cs.drop 2)).isEmpty then some (takeDigits (cs.drop 2))
      else matchIdParam cs
    else matchIdParam cs

/-- The effective `extractAdId` (lines 1445-1463, the last of the three
declarations of that name, which JavaScript hoisting makes the one in force):
try the three regex patterns in order and return the first capture.  The
source returns `String(match[1]).trim()`; the capture is a run of digits, on
which `trim` is the identity.  `!url` is true for a string exactly when it is
empty. -/
def extractAdId (url : String) : Option String :=
  if url = "" then none
  else
    match matchAdvUnderscore url.toList with
    | some ds => some (String.mk ds)
    | none =>
      match matchTrailingNum url.toList with
      | some ds => some (String.mk ds)
      | none =>
        match matchIdParam url.toList with
        | some ds => some (String.mk ds)
        | none => none

/-- JavaScript `String.prototype.trim`: strip whitespace from both ends.
(JS trims the Unicode whitespace class; the identifiers handled here are
ASCII, where `Char.isWhitespace` agrees.) -/
def jsTrim (s : String) : String :=
  String.mk (((s.toList.dropWhile Char.isWhitespace).reverse.dropWhile Char.isWhitespace).reverse)

/-- Value of a digit run as a natural number. -/
def digitsToNat (ds : List Char) : Nat :=
  ds.foldl (fun n c => 10 * n + (c.toNat - '0'.toNat)) 0

/-- Model of JavaScript `String(parseInt(s, 10))`: skip leading whitespace,
read an optional sign and then the maximal digit run; no digits give `NaN`
(stringified `"NaN"`), otherwise the decimal rendering of the value (which
drops leading zeros; `-0` renders as `"0"`). -/
def parseIntString (s : String) : String :=
  let t := s.toList.dropWhile Char.isWhitespace
  let signDigits : Bool × List Char :=
    match t with
    | '-' :: r => (true, r)
    | '+' :: r => (false, r)
    | r => (false, r)
  let ds := takeDigits signDigits.2
  if ds.isEmpty then "NaN"
  else if signDigits.1 && digitsToNat ds ≠ 0 then
    String.mk ('-' :: (Nat.repr (digitsToNat ds)).toList)
  else Nat.repr (digitsToNat ds)

/-- Identifier normalization used in the diff step, lines 1561, 1572 and 1627:
`String(parseInt(String(id).trim(), 10))`. -/
def normalizeId (s : String) : String :=
  parseIntString (jsTrim s)

/-- Claim C4 counterexample: the effective id-extraction function does not
normalize away leading zeros.  For `.../adv/000123_title-slug/` the first
regex pattern captures the raw digit run `000123`, while `.../adv/123/`
yields `123`; the two URL shapes therefore do not map to the same canonical
string. -/
theorem c4_counterexample :
    extractAdId "https://www.bazaraki.com/adv/000123_title-slug/" = some "000123" ∧
    extractAdId "https://www.bazaraki.com/adv/123/" = some "123" ∧
    ("000123" : String) ≠ "123" := by
  refine ⟨by decide, by decide, by decide⟩

/-- Claim C4 amended: `extractAdId` returns the raw captured digit run
(`"000123"` resp. `"123"`), and the normalization that the diff step applies
to every id before comparison (`String(parseInt(..., 10))`, embedded as
`normalizeId`) maps both extractions to the same canonical string `"123"`. -/
theorem c4_amended :
    (extractAdId "https://www.bazaraki.com/adv/000123_title-slug/").map normalizeId
      = some "123" ∧
    (extractAdId "https://www.bazaraki.com/adv/123/").map normalizeId = some "123" := by
  refine ⟨by decide, by decide⟩

/-- JavaScript `message.split('\n')` over character lists: the list of lines,
where a trailing separator produces a trailing empty line and splitting the
empty string gives one empty line. -/
def splitLinesCh : List Char → List (List Char)
  | [] => [[]]
  | c :: cs =>
    if c = '\n' then [] :: splitLinesCh cs
    else
      match splitLinesCh cs with
      | [] => [[c]]
      | l :: ls => (c :: l) :: ls

/-- Join a list of lines with single `'\n'` separators (the inverse of
`splitLinesCh`). -/
def joinCh : List (List Char) → List Char
  | [] => []
  | [l] => l
  | l :: l2 :: ls => l ++ '\n' :: joinCh (l2 :: ls)

/-- The accumulation loop of `splitLongMessage` (lines 2250-2261): state is
the finished chunks plus the chunk under construction; a line that would
overflow `maxLength` (counting the joining newline) pushes the current chunk,
otherwise it is appended, preceded by a newline when the chunk is
non-empty. -/
def splitChunksLoop (maxLength : Nat) : List (List Char) → List (List Char) → List Char → List (List Char)
  | [], chunks, cur => if !cur.isEmpty then chunks ++ [cur] else chunks
  | line :: ls, chunks, cur =>
    if cur.length + line.length + 1 > maxLength then
      splitChunksLoop maxLength ls (chunks ++ [cur]) line
    else
      splitChunksLoop maxLength ls chunks (if !cur.isEmpty then cur ++ '\n' :: line else line)

/-- The `splitLongMessage` function (lines 2241-2264): a message within the
limit is returned as the single chunk, otherwise the message is split on
newlines and re-chunked greedily.  JS `.length` counts UTF-16 units, which
agrees with the character count on the ASCII/BMP messages involved. -/
def splitLongMessage (message : String) (maxLength : Nat) : List String :=
  if message.length ≤ maxLength then [message]
  else (splitChunksLoop maxLength (splitLinesCh message.toList) [] []).map String.mk

/-- Joining a chunk list with a single newline between chunks; the
reassembly operation claim C10 speaks about. -/
def joinWithNewline (chunks : List String) : String :=
  String.mk (joinCh (chunks.map String.toList))

theorem toList_mk (l : List Char) : (String.mk l).toList = l := rfl

theorem mk_toList (s : String) : String.mk s.toList = s := rfl

theorem splitLinesCh_ne_nil (s : List Char) : splitLinesCh s ≠ [] := by
  match s with
  | [] => simp [splitLinesCh]
  | c :: cs =>
    rw [splitLinesCh]
    by_cases h : c = '\n'
    · simp [h]
    · simp only [h, if_false]
      cases splitLinesCh cs <;> simp

theorem joinCh_splitLinesCh (s : List Char) : joinCh (splitLinesCh s) = s := by
  induction s with
  | nil => rfl
  | cons c cs ih =>
    rw [splitLinesCh]
    by_cases h : c = '\n'
    · subst h
      simp only [if_pos rfl]
      obtain ⟨l, ls, hs⟩ : ∃ l ls, splitLinesCh cs = l :: ls := by
        cases hcs : splitLinesCh cs with
        | nil => exact absurd hcs (splitLinesCh_ne_nil cs)
        | cons l ls => exact ⟨l, ls, rfl⟩
      rw [hs]
      rw [hs] at ih
      show joinCh ([] :: l :: ls) = '\n' :: cs
      rw [joinCh, List.nil_append, ih]
    · simp only [h, if_false]
      obtain ⟨l, ls, hs⟩ : ∃ l ls, splitLinesCh cs = l :: ls := by
        cases hcs : splitLinesCh cs with
        | nil => exact absurd hcs (splitLinesCh_ne_nil cs)
        | cons l ls => exact ⟨l, ls, rfl⟩
      rw [hs]
      rw [hs] at ih
      cases ls with
      | nil =>
        show joinCh [c :: l] = c :: cs
        rw [joinCh]
        rw [joinCh] at ih
        rw [ih]
      | cons l2 ls2 =>
        show joinCh ((c :: l) :: l2 :: ls2) = c :: cs
        rw [joinCh] at ih ⊢
        rw [List.cons_append, ih]

theorem joinCh_cons (l : List Char) (ls : List (List Char)) (h : ls ≠ []) :
    joinCh (l :: ls) = l ++ '\n' :: joinCh ls := by
  cases ls with
  | nil => exact absurd rfl h
  | cons x xs => rfl

theorem joinCh_append_pair (xs : List (List Char)) (a b : List Char) :
    joinCh (xs ++ [a, b]) = joinCh (xs ++ [a ++ '\n' :: b]) := by
  induction xs with
  | nil => simp [joinCh]
  | cons x xs ih =>
    rw [List.cons_append, List.cons_append,
      joinCh_cons _ _ (by simp), joinCh_cons _ _ (by simp), ih]

theorem joinCh_merge (cur line : List Char) (ls : List (List Char)) :
    joinCh ((cur ++ '\n' :: line) :: ls) = joinCh (cur :: line :: ls) := by
  cases ls with
  | nil => simp [joinCh]
  | cons x xs =>
    rw [joinCh_cons _ _ (by simp), joinCh_cons cur _ (by simp),
      joinCh_cons line _ (by simp), List.append_assoc, List.cons_append]

theorem splitChunksLoop_join (maxLength : Nat) :
    ∀ (ls : List (List Char)) (chunks : List (List Char)) (cur : List Char),
      cur ≠ [] → (∀ l ∈ ls, l ≠ []) →
      joinCh (splitChunksLoop maxLength ls chunks cur)
        = joinCh (chunks ++ [joinCh (cur :: ls)]) := by
  intro ls
  induction ls with
  | nil =>
    intro chunks cur hcur _
    rw [splitChunksLoop]
    have : cur.isEmpty = false := by
      cases cur with
      | nil => exact absurd rfl hcur
      | cons c cs => rfl
    rw [this]
    rfl
  | cons line ls ih =>
    intro chunks cur hcur hall
    have hline : line ≠ [] := hall line (List.mem_cons_self line ls)
    have hrest : ∀ l ∈ ls, l ≠ [] := fun l hl => hall l (List.mem_cons_of_mem line hl)
    rw [splitChunksLoop]
    by_cases hb : cur.length + line.length + 1 > maxLength
    · rw [if_pos hb, ih (chunks ++ [cur]) line hline hrest,
        joinCh_cons cur (line :: ls) (by simp), List.append_assoc]
      exact joinCh_append_pair chunks cur (joinCh (line :: ls))
    · rw [if_neg hb]
      have hce : cur.isEmpty = false := by
        cases cur with
        | nil => exact absurd rfl hcur
        | cons c cs => rfl
      rw [hce]
      show joinCh (splitChunksLoop maxLength ls chunks (cur ++ '\n' :: line)) = _
      rw [ih chunks (cur ++ '\n' :: line) (by simp) hrest, joinCh_merge]

/-- Claim C10 counterexample: splitting `"ab"` with `maxLength = 1` pushes the
initial empty chunk before the first (overlong) line, so the chunks are
`["", "ab"]` and rejoining them with a newline yields `"\nab"`, not the
original message. -/
theorem c10_counterexample :
    splitLongMessage "ab" 1 = ["", "ab"] ∧
    joinWithNewline (splitLongMessage "ab" 1) = "\nab" ∧
    ("\nab" : String) ≠ "ab" := by
  refine ⟨by decide, by decide, by decide⟩

/-- Claim C10 amended: a message of length at most `maxLength` is returned
unchanged as the single chunk (as claimed), and rejoining the chunks with a
single newline reproduces the message exactly *provided every line of the
message is non-empty and shorter than `maxLength`* (two failure modes force
the proviso: a line of length ≥ `maxLength` at the start of a chunk pushes a
spurious empty chunk, and an empty line starting a chunk is silently
dropped). -/
theorem c10_amended (message : String) (maxLength : Nat) :
    (message.length ≤ maxLength → splitLongMessage message maxLength = [message]) ∧
    ((∀ l ∈ splitLinesCh message.toList, l ≠ [] ∧ l.length + 1 ≤ maxLength) →
      joinWithNewline (splitLongMessage message maxLength) = message) := by
  constructor
  · intro h
    rw [splitLongMessage, if_pos h]
  · intro h
    by_cases hle : message.length ≤ maxLength
    · rw [splitLongMessage, if_pos hle, joinWithNewline]
      show String.mk (joinCh [message.toList]) = message
      rw [joinCh, mk_toList]
    · rw [splitLongMessage, if_neg hle, joinWithNewline, List.map_map]
      have hmapid : (splitChunksLoop maxLength (splitLinesCh message.toList) [] []).map
          (String.toList ∘ String.mk)
          = splitChunksLoop maxLength (splitLinesCh message.toList) [] [] := by
        apply List.map_id''
        intro l
        rfl
      rw [hmapid]
      obtain ⟨l0, rest, hs⟩ : ∃ l0 rest, splitLinesCh message.toList = l0 :: rest := by
        cases hcs : splitLinesCh message.toList with
        | nil => exact absurd hcs (splitLinesCh_ne_nil _)
        | cons l ls => exact ⟨l, ls, rfl⟩
      rw [hs] at h ⊢
      have hl0 := h l0 (List.mem_cons_self l0 rest)
      have hfirst : splitChunksLoop maxLength (l0 :: rest) [] []
          = splitChunksLoop maxLength rest [] l0 := by
        rw [splitChunksLoop]
        have : ¬ (List.length ([] : List Char) + l0.length + 1 > maxLength) := by
          simp only [List.length_nil, Nat.zero_add]
          omega
        rw [if_neg this]
        rfl
      rw [hfirst, splitChunksLoop_join maxLength rest [] l0 hl0.1
        (fun l hl => (h l (List.mem_cons_of_mem l0 hl)).1)]
      show String.mk (joinCh [joinCh (l0 :: rest)]) = message
      rw [joinCh, ← hs, joinCh_splitLinesCh, mk_toList]

/-- Claim C10 witness: both parts of the amended statement evaluated on
concrete inputs. -/
theorem c10_witness :
    joinWithNewline (splitLongMessage "abc\ndef" 4) = "abc\ndef" ∧
    splitLongMessage "ab" 10 = ["ab"] := by
  refine ⟨(c10_amended "abc\ndef" 4).2 (by decide), (c10_amended "ab" 10).1 (by decide)⟩

/-- A listing record as handled by the diff step.  The source objects carry
further payload fields (`price`, `location`, `details`, `scrapedAt`) that no
claim inspects and that `saveAndCompareResults` copies through unchanged; they
are elided here.  A missing `id` property is `none`; JavaScript truthiness of
the id (`if (listing.id)`) is `idTruthy`. -/
structure Listing where
  id : Option String
  url : String
  title : Option String
  propertyType : Option String
  deriving Repr, DecidableEq

/-- JavaScript truthiness of a possibly-missing id string: absent and the
empty string are falsy. -/
def idTruthy : Option String → Bool
  | some s => s ≠ ""
  | none => false

/-- Per-listing id preparation, lines 1495-1507: a listing without a truthy
id gets the id extracted from its URL (when extraction succeeds), otherwise
the existing id is coerced to a trimmed string. -/
def processListing (l : Listing) : Listing :=
  if idTruthy l.id then { l with id := some (jsTrim (l.id.getD "")) }
  else
    match extractAdId l.url with
    | some adId => { l with id := some adId }
    | none => l

/-- The normalized comparison key of a listing,
`String(parseInt(String(listing.id).trim(), 10))`; only evaluated under
`idTruthy`, where `getD ""` is never used. -/
def normKey (l : Listing) : String :=
  normalizeId (l.id.getD "")

/-- JS `Set.add` on an insertion-ordered duplicate-free list. -/
def insertIfAbsent (xs : List String) (x : String) : List String :=
  if x ∈ xs then xs else xs ++ [x]

/-- One step of the `forEach` loops building the normalized id sets (lines
1558-1563 for the prior state, lines 1570-1575 for the current listings):
listings with a truthy id contribute their normalized key. -/
def normStep (acc : List String) (l : Listing) : List String :=
  if idTruthy l.id then insertIfAbsent acc (normKey l) else acc

/-- The normalized id set of a listing list, as built by both `forEach`
loops; the same normalization is applied on the prior and the current
side. -/
def normalizedIdsOf (ls : List Listing) : List String :=
  ls.foldl normStep []

/-- One step of building `normalizedIdMap` (line 1574): a later listing with
the same normalized key overwrites an earlier one, as JS object assignment
does. -/
def lookupStep (nid : String) (acc : Option Listing) (l : Listing) : Option Listing :=
  if idTruthy l.id && normKey l == nid then some l else acc

/-- Lookup in `normalizedIdMap`: the last listing whose normalized key is
`nid`. -/
def normalizedIdLookup (ls : List Listing) (nid : String) : Option Listing :=
  ls.foldl (lookupStep nid) none

/-- `newIds` of the normal comparison branch (line 1603): current ids absent
from the prior set. -/
def diffNewIds (cur prev : List String) : List String :=
  cur.filter (fun i => decide (i ∉ prev))

/-- `removedIds` (line 1614): prior ids absent from the current set. -/
def diffRemovedIds (cur prev : List String) : List String :=
  prev.filter (fun i => decide (i ∉ cur))

/-- The unchanged classification `currentIds ∩ priorIds`; implicit in the
source (unchanged listings are the current ones that are neither new nor
removed, counted as `total - newCount` at line 1811). -/
def intersectIds (cur prev : List String) : List String :=
  cur.filter (fun i => decide (i ∈ prev))

/-- `createCompactListing` (lines 1469-1480): the persisted projection of a
listing; the id becomes `String(listing.id || '').trim()`.  The source also
copies `price`, `location`, `details` and `scrapedAt`, elided here like on
`Listing`. -/
def createCompactListing (l : Listing) : Listing :=
  { id := some (jsTrim (l.id.getD "")), url := l.url, title := l.title,
    propertyType := l.propertyType }

/-- The object returned by `saveAndCompareResults` (lines 1652-1657). -/
structure SaveResult where
  currentListings : List Listing
  newListings : List Listing
  removedListings : List Listing
  isFirstRun : Bool
  deriving Repr, DecidableEq

/-- Full observable outcome of the diff step: the returned object, the
anomaly warning emitted via `console.warn` at lines 1607-1610, and the
compact listing list persisted to `state.json` at lines 1631-1644. -/
structure SaveOutcome where
  result : SaveResult
  anomalyWarning : Bool
  savedState : List Listing
  deriving Repr, DecidableEq

/-- The diff step `saveAndCompareResults` (lines 1486-1668).  `prior` is the
parsed prior snapshot's listing array; `none` models the store reporting the
state key as absent (`NoSuchKey`), the only case that sets `isFirstRun`.
`force` is `FORCE_NOTIFICATION === 'true'`.  The anomaly condition
`newIds.length > 50 && newIds.length > size * 0.25` is expressed as
`4 * newIds.length > size`, which is exactly equivalent for natural counts
(IEEE doubles are exact on these magnitudes). -/
def saveAndCompareResults (listings : List Listing) (prior : Option (List Listing))
    (force : Bool) : SaveOutcome :=
  let processed := listings.map processListing
  let firstRun := prior.isNone
  let priorListings := prior.getD []
  let previousIds := normalizedIdsOf priorListings
  let currentIds := normalizedIdsOf processed
  let newIds :=
    if firstRun then (if force then currentIds else [])
    else if previousIds.isEmpty then (if force then currentIds else [])
    else diffNewIds currentIds previousIds
  let warning :=
    if firstRun || previousIds.isEmpty then false
    else decide (newIds.length > 50) && decide (4 * newIds.length > currentIds.length)
  let removedIds := diffRemovedIds currentIds previousIds
  let newListings := newIds.filterMap (normalizedIdLookup processed)
  let removedListings := priorListings.filter
    (fun l => idTruthy l.id && decide (normKey l ∈ removedIds))
  { result :=
      { currentListings := processed, newListings := newListings,
        removedListings := removedListings, isFirstRun := firstRun },
    anomalyWarning := warning,
    savedState := processed.map createCompactListing }

theorem mem_insertIfAbsent (acc : List String) (k x : String) :
    x ∈ insertIfAbsent acc k ↔ x ∈ acc ∨ x = k := by
  rw [insertIfAbsent]
  by_cases h : k ∈ acc
  · rw [if_pos h]
    constructor
    · exact Or.inl
    · rintro (hx | rfl)
      · exact hx
      · exact h
  · rw [if_neg h]
    simp

theorem nodup_insertIfAbsent (acc : List String) (k : String) (h : acc.Nodup) :
    (insertIfAbsent acc k).Nodup := by
  rw [insertIfAbsent]
  by_cases hk : k ∈ acc
  · rwa [if_pos hk]
  · rw [if_neg hk]
    refine List.Nodup.append h (List.nodup_singleton k) ?_
    intro a ha hak
    rw [List.mem_singleton] at hak
    exact hk (hak ▸ ha)

theorem mem_normFold (ls : List Listing) :
    ∀ (acc : List String) (x : String),
      (x ∈ ls.foldl normStep acc ↔
        x ∈ acc ∨ ∃ l, l ∈ ls ∧ idTruthy l.id = true ∧ normKey l = x) := by
  induction ls with
  | nil =>
    intro acc x
    simp
  | cons l ls ih =>
    intro acc x
    rw [List.foldl_cons, ih, normStep]
    by_cases h : idTruthy l.id
    · rw [if_pos h]
      rw [mem_insertIfAbsent]
      constructor
      · rintro ((hx | rfl) | ⟨l', hl', ht, hk⟩)
        · exact Or.inl hx
        · exact Or.inr ⟨l, List.mem_cons_self l ls, h, rfl⟩
        · exact Or.inr ⟨l', List.mem_cons_of_mem l hl', ht, hk⟩
      · rintro (hx | ⟨l', hl', ht, hk⟩)
        · exact Or.inl (Or.inl hx)
        · rcases List.mem_cons.mp hl' with rfl | hl'
          · exact Or.inl (Or.inr hk.symm)
          · exact Or.inr ⟨l', hl', ht, hk⟩
    · rw [if_neg h]
      constructor
      · rintro (hx | ⟨l', hl', ht, hk⟩)
        · exact Or.inl hx
        · exact Or.inr ⟨l', List.mem_cons_of_mem l hl', ht, hk⟩
      · rintro (hx | ⟨l', hl', ht, hk⟩)
        · exact Or.inl hx
        · rcases List.mem_cons.mp hl' with rfl | hl'
          · exact absurd ht h
          · exact Or.inr ⟨l', hl', ht, hk⟩

theorem mem_normalizedIdsOf (ls : List Listing) (l : Listing) (hl : l ∈ ls)
    (ht : idTruthy l.id = true) : normKey l ∈ normalizedIdsOf ls := by
  rw [normalizedIdsOf, mem_normFold]
  exact Or.inr ⟨l, hl, ht, rfl⟩

theorem normFold_eq_of_nodup (ls : List Listing) :
    ∀ acc : List String,
      (∀ l ∈ ls, idTruthy l.id = true) → (acc ++ ls.map normKey).Nodup →
      ls.foldl normStep acc = acc ++ ls.map normKey := by
  induction ls with
  | nil =>
    intro acc _ _
    simp
  | cons l ls ih =>
    intro acc hT hD
    rw [List.foldl_cons, normStep, if_pos (hT l (List.mem_cons_self l ls))]
    have hnotmem : normKey l ∉ acc := by
      intro hmem
      have hdisj := List.disjoint_of_nodup_append hD
      exact hdisj hmem (by simp)
    rw [insertIfAbsent, if_neg hnotmem]
    rw [ih (acc ++ [normKey l]) (fun l' hl' => hT l' (List.mem_cons_of_mem l hl'))
      (by simpa [List.append_assoc] using hD)]
    simp

theorem normalizedIdsOf_eq_of_nodup (ls : List Listing)
    (hT : ∀ l ∈ ls, idTruthy l.id = true) (hD : (ls.map normKey).Nodup) :
    normalizedIdsOf ls = ls.map normKey := by
  rw [normalizedIdsOf, normFold_eq_of_nodup ls [] hT (by simpa using hD)]
  simp

theorem lookupFold_of_no_match (nid : String) (ls : List Listing) :
    ∀ acc : Option Listing,
      (∀ l ∈ ls, ¬(idTruthy l.id = true ∧ normKey l = nid)) →
      ls.foldl (lookupStep nid) acc = acc := by
  induction ls with
  | nil =>
    intro acc _
    rfl
  | cons l ls ih =>
    intro acc hno
    rw [List.foldl_cons, lookupStep]
    have : ¬(idTruthy l.id = true ∧ normKey l = nid) := hno l (List.mem_cons_self l ls)
    have hcond : (idTruthy l.id && normKey l == nid) = false := by
      by_cases ht : idTruthy l.id = true
      · have : normKey l ≠ nid := fun hk => this ⟨ht, hk⟩
        simp [ht, this]
      · simp [Bool.eq_false_iff.mpr ht]
    rw [hcond]
    exact ih acc (fun l' hl' => hno l' (List.mem_cons_of_mem l hl'))

theorem normalizedIdLookup_self (ls : List Listing)
    (hT : ∀ l ∈ ls, idTruthy l.id = true) (hD : (ls.map normKey).Nodup) :
    ∀ l0 ∈ ls, normalizedIdLookup ls (normKey l0) = some l0 := by
  simp only [normalizedIdLookup]
  suffices h : ∀ acc, ∀ l0 ∈ ls, ls.foldl (lookupStep (normKey l0)) acc = some l0 by
    intro l0 hl0
    exact h none l0 hl0
  induction ls with
  | nil =>
    intro acc l0 hl0
    exact absurd hl0 (List.not_mem_nil l0)
  | cons l ls ih =>
    intro acc l0 hl0
    rcases List.mem_cons.mp hl0 with rfl | hl0'
    · rw [List.foldl_cons, lookupStep,
        show (idTruthy l0.id && normKey l0 == normKey l0) = true by
          simp [hT l0 (List.mem_cons_self l0 ls)]]
      apply lookupFold_of_no_match
      intro l' hl' ⟨_, hk⟩
      have : normKey l0 ∈ ls.map normKey := hk ▸ List.mem_map_of_mem normKey hl'
      exact (List.nodup_cons.mp hD).1 this
    · rw [List.foldl_cons]
      exact ih (fun l' hl' => hT l' (List.mem_cons_of_mem l hl'))
        (List.nodup_cons.mp hD).2 _ l0 hl0'

theorem filterMap_lookup_self (pls : List Listing)
    (hT : ∀ l ∈ pls, idTruthy l.id = true) (hD : (pls.map normKey).Nodup) :
    ∀ sub : List Listing, (∀ l ∈ sub, l ∈ pls) →
      sub.filterMap (fun l => normalizedIdLookup pls (normKey l)) = sub := by
  intro sub
  induction sub with
  | nil =>
    intro _
    rfl
  | cons l sub ih =>
    intro hsub
    rw [List.filterMap_cons,
      normalizedIdLookup_self pls hT hD l (hsub l (List.mem_cons_self l sub)),
      ih (fun l' hl' => hsub l' (List.mem_cons_of_mem l hl'))]

/-- Claim C3: with no object at the snapshot key (`prior = none`), the diff
step reports `isFirstRun = true`, returns no new listings unless the
force-notification flag is set (in which case, for well-formed current
listings — truthy ids with distinct normalized keys, the snapshot id
uniqueness invariant of the data model — all current listings are reported as
new), and persists all current listings (in compact form) into the
snapshot. -/
theorem c3_theorem (listings : List Listing) (force : Bool) :
    (saveAndCompareResults listings none force).result.isFirstRun = true ∧
    (force = false → (saveAndCompareResults listings none force).result.newListings = []) ∧
    (saveAndCompareResults listings none force).savedState
      = (listings.map processListing).map createCompactListing ∧
    (force = true →
      (∀ l ∈ listings.map processListing, idTruthy l.id = true) →
      ((listings.map processListing).map normKey).Nodup →
      (saveAndCompareResults listings none force).result.newListings
        = listings.map processListing) := by
  refine ⟨rfl, ?_, rfl, ?_⟩
  · rintro rfl
    rfl
  · rintro rfl hT hD
    show (normalizedIdsOf (listings.map processListing)).filterMap
        (normalizedIdLookup (listings.map processListing)) = listings.map processListing
    rw [normalizedIdsOf_eq_of_nodup _ hT hD, List.filterMap_map]
    exact filterMap_lookup_self _ hT hD _ (fun l hl => hl)

/-- Claim C3 witness: a concrete forced first run with two well-formed
listings. -/
theorem c3_witness :
    (saveAndCompareResults
        [{ id := some "7", url := "", title := none, propertyType := none },
         { id := some "8", url := "", title := none, propertyType := none }] none true).result.newListings
      = [{ id := some "7", url := "", title := none, propertyType := none },
         { id := some "8", url := "", title := none, propertyType := none }] := by
  have h := (c3_theorem
    [{ id := some "7", url := "", title := none, propertyType := none },
     { id := some "8", url := "", title := none, propertyType := none }] true).2.2.2
    rfl (by decide) (by decide)
  rw [h]
  decide

/-- Fifty-one listings with distinct ids, used to exercise the anomaly
thresholds. -/
def c6Listings : List Listing :=
  (List.range 51).map (fun n =>
    { id := some (Nat.repr (n + 1)), url := "", title := none, propertyType := none })

/-- A prior listing whose id is disjoint from `c6Listings`. -/
def c6PriorListing : Listing :=
  { id := some "9999", url := "", title := none, propertyType := none }

/-- Claim C6 counterexample: on a forced first run with 51 current listings,
the number of new ids (51) exceeds both thresholds (51 > 50 and
51 > 25% of 51), yet no anomaly warning is emitted — the guard only runs in
the normal comparison branch. -/
theorem c6_counterexample :
    (saveAndCompareResults c6Listings none true).result.newListings.length = 51 ∧
    (saveAndCompareResults c6Listings none true).result.currentListings.length = 51 ∧
    (51 : Nat) > 50 ∧ 4 * 51 > 51 ∧
    (saveAndCompareResults c6Listings none true).anomalyWarning = false := by
  refine ⟨by decide, by decide, by decide, by decide, rfl⟩

/-- Claim C6 amended: on a non-first run whose prior normalized id set is
non-empty, whenever the new-id count exceeds 50 and exceeds 25% of the
current id count, the diff step emits the anomaly warning (and still returns
a normal result rather than failing). -/
theorem c6_amended (listings prior : List Listing) (force : Bool)
    (hprior : normalizedIdsOf prior ≠ [])
    (habs : 50 < (diffNewIds (normalizedIdsOf (listings.map processListing))
        (normalizedIdsOf prior)).length)
    (hprop : 4 * (diffNewIds (normalizedIdsOf (listings.map processListing))
        (normalizedIdsOf prior)).length
        > (normalizedIdsOf (listings.map processListing)).length) :
    (saveAndCompareResults listings (some prior) force).anomalyWarning = true := by
  have hempty : (normalizedIdsOf prior).isEmpty = false := by
    cases h : normalizedIdsOf prior with
    | nil => exact absurd h hprior
    | cons a as => rfl
  simp only [saveAndCompareResults, Option.isNone_some, Option.getD_some, Bool.false_or, hempty,
    Bool.false_eq_true, if_false, Bool.and_eq_true, decide_eq_true_eq, gt_iff_lt]
  exact ⟨habs, hprop⟩

/-- Claim C6 witness: prior set of size 1, current set of 51 fresh ids; both
thresholds are exceeded and the warning fires. -/
theorem c6_witness :
    (saveAndCompareResults c6Listings (some [c6PriorListing]) false).anomalyWarning = true :=
  c6_amended c6Listings [c6PriorListing] false (by decide) (by decide) (by decide)

/-- Claim C1: on a run with a non-empty, well-formed prior snapshot (every
prior listing has a truthy id; the current listings have truthy ids with
pairwise-distinct normalized keys, the snapshot uniqueness invariant), the
diff step classifies by normalized-id set difference: `newListings` is
exactly the current listings whose normalized key lies in
`currentIds − priorIds`, `removedListings` is exactly the prior listings
whose normalized key lies in `priorIds − currentIds`, and at the id level
`new = C − P`, `removed = P − C`, `new ∪ (C ∩ P) = C` with
`new ∩ (C ∩ P) = ∅`. -/
theorem c1_theorem (listings ps : List Listing) (force : Bool)
    (hpsne : ps ≠ [])
    (hpT : ∀ l ∈ ps, idTruthy l.id = true)
    (hcT : ∀ l ∈ listings.map processListing, idTruthy l.id = true)
    (hcD : ((listings.map processListing).map normKey).Nodup) :
    (saveAndCompareResults listings (some ps) force).result.newListings
      = (listings.map processListing).filter (fun l =>
          decide (normKey l ∈ diffNewIds (normalizedIdsOf (listings.map processListing))
            (normalizedIdsOf ps))) ∧
    (saveAndCompareResults listings (some ps) force).result.removedListings
      = ps.filter (fun l =>
          decide (normKey l ∈ diffRemovedIds (normalizedIdsOf (listings.map processListing))
            (normalizedIdsOf ps))) ∧
    (∀ i, i ∈ diffNewIds (normalizedIdsOf (listings.map processListing)) (normalizedIdsOf ps)
        ↔ i ∈ normalizedIdsOf (listings.map processListing) ∧ i ∉ normalizedIdsOf ps) ∧
    (∀ i, i ∈ diffRemovedIds (normalizedIdsOf (listings.map processListing)) (normalizedIdsOf ps)
        ↔ i ∈ normalizedIdsOf ps ∧ i ∉ normalizedIdsOf (listings.map processListing)) ∧
    (∀ i, (i ∈ diffNewIds (normalizedIdsOf (listings.map processListing)) (normalizedIdsOf ps)
        ∨ i ∈ intersectIds (normalizedIdsOf (listings.map processListing)) (normalizedIdsOf ps))
        ↔ i ∈ normalizedIdsOf (listings.map processListing)) ∧
    (∀ i, ¬(i ∈ diffNewIds (normalizedIdsOf (listings.map processListing)) (normalizedIdsOf ps)
        ∧ i ∈ intersectIds (normalizedIdsOf (listings.map processListing))
            (normalizedIdsOf ps))) := by
  have hprevne : normalizedIdsOf ps ≠ [] := by
    obtain ⟨l0, hl0⟩ := List.exists_mem_of_ne_nil ps hpsne
    have hmem := mem_normalizedIdsOf ps l0 hl0 (hpT l0 hl0)
    intro h
    rw [h] at hmem
    exact List.not_mem_nil _ hmem
  have hempty : (normalizedIdsOf ps).isEmpty = false := by
    cases h : normalizedIdsOf ps with
    | nil => exact absurd h hprevne
    | cons a as => rfl
  have hcur : normalizedIdsOf (listings.map processListing)
      = (listings.map processListing).map normKey :=
    normalizedIdsOf_eq_of_nodup _ hcT hcD
  refine ⟨?_, ?_, ?_, ?_, ?_, ?_⟩
  · have hnew : (saveAndCompareResults listings (some ps) force).result.newListings
        = (diffNewIds (normalizedIdsOf (listings.map processListing))
            (normalizedIdsOf ps)).filterMap
            (normalizedIdLookup (listings.map processListing)) := by
      simp only [saveAndCompareResults, Option.isNone_some, Option.getD_some,
        Bool.false_eq_true, if_false, hempty]
    rw [hnew]
    conv_lhs => rw [hcur, diffNewIds, List.filter_map, List.filterMap_map]
    simp only [Function.comp_def]
    rw [filterMap_lookup_self _ hcT hcD _ (fun l hl => List.mem_of_mem_filter hl)]
    apply List.filter_congr
    intro l hl
    rw [decide_eq_decide]
    rw [diffNewIds, List.mem_filter]
    constructor
    · intro hnp
      exact ⟨hcur ▸ List.mem_map_of_mem normKey hl, by simpa using hnp⟩
    · intro ⟨_, hnp⟩
      simpa using hnp
  · show ps.filter (fun l => idTruthy l.id &&
        decide (normKey l ∈ diffRemovedIds (normalizedIdsOf (listings.map processListing))
          (normalizedIdsOf ps))) = _
    apply List.filter_congr
    intro l hl
    rw [hpT l hl, Bool.true_and]
  · intro i
    rw [diffNewIds, List.mem_filter]
    simp
  · intro i
    rw [diffRemovedIds, List.mem_filter]
    simp
  · intro i
    rw [diffNewIds, intersectIds, List.mem_filter, List.mem_filter]
    by_cases h : i ∈ normalizedIdsOf ps <;> simp [h]
  · intro i
    rw [diffNewIds, intersectIds, List.mem_filter, List.mem_filter]
    rintro ⟨⟨_, hni⟩, ⟨_, hyi⟩⟩
    rw [decide_eq_true_eq] at hni hyi
    exact hni hyi

/-- Prior snapshot used by the C1 witness. -/
def c1Prior : List Listing :=
  [{ id := some "1", url := "", title := none, propertyType := none },
   { id := some "2", url := "", title := none, propertyType := none }]

/-- Current listings used by the C1 witness. -/
def c1Current : List Listing :=
  [{ id := some "2", url := "", title := none, propertyType := none },
   { id := some "3", url := "", title := none, propertyType := none }]

/-- Claim C1 witness: the classification equalities instantiated at the
concrete end-to-end inputs (prior ids {1,2}, current ids {2,3}). -/
theorem c1_witness :
    (saveAndCompareResults c1Current (some c1Prior) false).result.newListings
      = (c1Current.map processListing).filter (fun l =>
          decide (normKey l ∈ diffNewIds (normalizedIdsOf (c1Current.map processListing))
            (normalizedIdsOf c1Prior))) ∧
    (saveAndCompareResults c1Current (some c1Prior) false).result.removedListings
      = c1Prior.filter (fun l =>
          decide (normKey l ∈ diffRemovedIds (normalizedIdsOf (c1Current.map processListing))
            (normalizedIdsOf c1Prior))) ∧
    (∀ i, i ∈ diffNewIds (normalizedIdsOf (c1Current.map processListing)) (normalizedIdsOf c1Prior)
        ↔ i ∈ normalizedIdsOf (c1Current.map processListing) ∧ i ∉ normalizedIdsOf c1Prior) ∧
    (∀ i, i ∈ diffRemovedIds (normalizedIdsOf (c1Current.map processListing))
            (normalizedIdsOf c1Prior)
        ↔ i ∈ normalizedIdsOf c1Prior ∧ i ∉ normalizedIdsOf (c1Current.map processListing)) ∧
    (∀ i, (i ∈ diffNewIds (normalizedIdsOf (c1Current.map processListing)) (normalizedIdsOf c1Prior)
        ∨ i ∈ intersectIds (normalizedIdsOf (c1Current.map processListing))
            (normalizedIdsOf c1Prior))
        ↔ i ∈ normalizedIdsOf (c1Current.map processListing)) ∧
    (∀ i, ¬(i ∈ diffNewIds (normalizedIdsOf (c1Current.map processListing))
            (normalizedIdsOf c1Prior)
        ∧ i ∈ intersectIds (normalizedIdsOf (c1Current.map processListing))
            (normalizedIdsOf c1Prior))) :=
  c1_theorem c1Current c1Prior false (by decide) (by decide) (by decide) (by decide)

/-- A fetched-and-parsed results page, the DOM abstraction used by
`extractListingUrls`: `adLinks` holds the raw `href` attributes of the
anchors collected by the selector query at lines 1034-1039, and `nextHref`
the resolved next-page `href` found by the pagination search at lines
1087-1123 (`none` when no truthy next-page link is found). -/
structure Page where
  adLinks : List String
  nextHref : Option String
  deriving Repr, DecidableEq

/-- `BASE_URL` (line 131). -/
def BASE_URL : String := "https://www.bazaraki.com"

/-- Absolutization of an `href` (lines 1052, 1098, 1114):
`href.startsWith('http') ? href : BASE_URL + href` (the JS `startsWith` is
the character-prefix test). -/
def toFullUrl (href : String) : String :=
  if startsWithL href.toList "http".toList then href else BASE_URL ++ href

/-- The result object of `extractListingUrls` (lines 973-984).  The derived
float `estimatedTimeSaved` (`savedRequestsCount * 1.5`, line 1137) is
elided; the error object built at lines 1148-1155 omits the numeric counter
fields, modelled as zeros. -/
structure UrlResults where
  allUrls : List String
  newUrls : List String
  skippedIds : List String
  urlsByIdMap : List (String × String)
  idsByUrlMap : List (String × String)
  pagesCrawled : Nat
  totalFound : Nat
  skippedCount : Nat
  savedRequestsCount : Nat
  error : Option String
  deriving Repr, DecidableEq

/-- The freshly initialized result object. -/
def emptyUrlResults : UrlResults :=
  { allUrls := [], newUrls := [], skippedIds := [], urlsByIdMap := [], idsByUrlMap := [],
    pagesCrawled := 0, totalFound := 0, skippedCount := 0, savedRequestsCount := 0,
    error := none }

/-- The object returned by the catch-all at lines 1148-1155. -/
def errorUrlResults (msg : String) : UrlResults :=
  { emptyUrlResults with error := some msg }

/-- First match in an association list. -/
def assocGetRev : List (String × String) → String → Option String
  | [], _ => none
  | p :: m, k => if p.1 = k then some p.2 else assocGetRev m k

/-- Last-write-wins lookup in a JS plain object used as a map (entries are
appended in program order, so the last binding of a key is found by scanning
the reversed list). -/
def assocGet (m : List (String × String)) (k : String) : Option String :=
  assocGetRev m.reverse k

/-- Processing of one anchor of a results page (lines 1047-1081): skip
non-ad and duplicate URLs, extract the id, and either record a known id as
skipped (counting it toward `allUrls` only) or append the URL to `newUrls`
and maintain the id maps.  The second state component is the `urlSet` used
for deduplication (line 991). -/
def processAdLink (knownIds : Option (List String)) (skipKnown : Bool)
    (st : UrlResults × List String) (href : String) : UrlResults × List String :=
  if !containsSub "/adv/".toList href.toList then st
  else
    let fullUrl := toFullUrl href
    if fullUrl ∈ st.2 then st
    else
      match extractAdId fullUrl with
      | some i =>
        if skipKnown && (match knownIds with | some ks => decide (i ∈ ks) | none => false) then
          ({ st.1 with
              skippedIds := insertIfAbsent st.1.skippedIds i,
              skippedCount := st.1.skippedCount + 1,
              savedRequestsCount := st.1.savedRequestsCount + 1,
              totalFound := st.1.totalFound + 1,
              allUrls := st.1.allUrls ++ [fullUrl] }, fullUrl :: st.2)
        else
          ({ st.1 with
              newUrls := st.1.newUrls ++ [fullUrl],
              allUrls := st.1.allUrls ++ [fullUrl],
              totalFound := st.1.totalFound + 1,
              urlsByIdMap := st.1.urlsByIdMap ++ [(i, fullUrl)],
              idsByUrlMap := st.1.idsByUrlMap ++ [(fullUrl, i)] }, fullUrl :: st.2)
      | none =>
          ({ st.1 with
              newUrls := st.1.newUrls ++ [fullUrl],
              allUrls := st.1.allUrls ++ [fullUrl],
              totalFound := st.1.totalFound + 1 }, fullUrl :: st.2)

/-- The page loop of `extractListingUrls` (lines 995-1133), with the page
budget as structural fuel: `pagesCrawled` is incremented before the fetch; a
fetch failure on page 1 produces the catch-all error result (the thrown
message `Konnte keine Anzeigen laden: ...` is modelled without the dynamic
axios text), a failure on a later page breaks with the partial results;
otherwise the page's anchors are processed and the loop continues exactly
when a truthy next-page link was found and `page < maxPages`. -/
def crawlLoop (site : String → Option Page) (knownIds : Option (List String))
    (skipKnown : Bool) (maxPages : Nat) :
    Nat → Nat → String → UrlResults → List String → UrlResults
  | 0, _, _, r, _ => r
  | fuel + 1, page, currentUrl, r, seen =>
    let r1 := { r with pagesCrawled := r.pagesCrawled + 1 }
    match site currentUrl with
    | none => if page = 1 then errorUrlResults "Konnte keine Anzeigen laden" else r1
    | some pg =>
      let st := pg.adLinks.foldl (processAdLink knownIds skipKnown) (r1, seen)
      match pg.nextHref with
      | some nhref =>
        if nhref ≠ "" ∧ page < maxPages then
          crawlLoop site knownIds skipKnown maxPages fuel (page + 1) (toFullUrl nhref) st.1 st.2
        else st.1
      | none => st.1

/-- `extractListingUrls` (lines 967-1157) over a fetch oracle `site`
(`none` = network/parse failure for that URL).  With `maxPages = 0` the page
loop never runs and the fresh result object is returned. -/
def extractListingUrls (site : String → Option Page) (url : String) (maxPages : Nat)
    (knownIds : Option (List String)) (skipKnown : Bool) : UrlResults :=
  crawlLoop site knownIds skipKnown maxPages maxPages 1 url emptyUrlResults []

/-- JavaScript `a || b` on possibly-missing strings: the first operand wins
when it is truthy. -/
def jsOrString (a b : Option String) : Option String :=
  match a with
  | some s => if s = "" then b else some s
  | none => b

/-- The `newListingUrls` pairs built by `scrapeListings` (lines 343-359):
for each URL in `newUrls`, the id is `idsByUrlMap[url] || extractAdId(url)`,
and URLs without a truthy id are skipped.  The detail-extraction loop
(lines 417-432) iterates exactly over these pairs, so the detail-fetched
URLs and ids of a run are `(newListingUrlsOf r).map Prod.fst` and
`.map Prod.snd`. -/
def newListingPair (m : List (String × String)) (u : String) : Option (String × String) :=
  match jsOrString (assocGet m u) (extractAdId u) with
  | some i => if i = "" then none else some (u, i)
  | none => none

def newListingUrlsOf (r : UrlResults) : List (String × String) :=
  r.newUrls.filterMap (newListingPair r.idsByUrlMap)

/-- A site whose first page parses but contains zero candidate ad links. -/
def c7Site : String → Option Page :=
  fun u =>
    if u = "https://www.bazaraki.com/search" then some { adLinks := [], nextHref := none }
    else none

/-- Claim C7 counterexample: a first results page with zero candidate links
is not treated as a failure — discovery returns a zero-listing result with
`error = none` instead of propagating an error. -/
theorem c7_counterexample :
    (extractListingUrls c7Site "https://www.bazaraki.com/search" 10 none false).error = none ∧
    (extractListingUrls c7Site "https://www.bazaraki.com/search" 10 none false).allUrls = [] ∧
    (extractListingUrls c7Site "https://www.bazaraki.com/search" 10 none false).newUrls = [] ∧
    (extractListingUrls c7Site "https://www.bazaraki.com/search" 10 none false).pagesCrawled = 1 := by
  refine ⟨by decide, by decide, by decide, by decide⟩

/-- Claim C7 amended: a fetched first page with zero candidate links (and no
next-page link) yields a normally-returned empty result with no error; an
error result is produced only when fetching/parsing the first page itself
fails — and even then it is returned as a result object carrying an `error`
field (the function catches its own throw at lines 1146-1156). -/
theorem c7_amended (site : String → Option Page) (url : String) (maxPages : Nat)
    (knownIds : Option (List String)) (skipKnown : Bool) (hm : 1 ≤ maxPages) :
    (∀ pg, site url = some pg → pg.adLinks = [] → pg.nextHref = none →
      extractListingUrls site url maxPages knownIds skipKnown
        = { emptyUrlResults with pagesCrawled := 1 }) ∧
    (site url = none →
      extractListingUrls site url maxPages knownIds skipKnown
        = errorUrlResults "Konnte keine Anzeigen laden") := by
  obtain ⟨k, rfl⟩ : ∃ k, maxPages = k + 1 := ⟨maxPages - 1, by omega⟩
  constructor
  · intro pg hsite hlinks hnext
    obtain ⟨links, nhref⟩ := pg
    have hlinks' : links = [] := hlinks
    have hnext' : nhref = none := hnext
    subst hlinks'
    subst hnext'
    show crawlLoop site knownIds skipKnown (k + 1) (k + 1) 1 url emptyUrlResults [] = _
    rw [crawlLoop, hsite]
    rfl
  · intro hsite
    show crawlLoop site knownIds skipKnown (k + 1) (k + 1) 1 url emptyUrlResults [] = _
    rw [crawlLoop, hsite]
    rfl

/-- Claim C7 witness: the amended statement applied to the concrete
zero-link site. -/
theorem c7_witness :
    extractListingUrls c7Site "https://www.bazaraki.com/search" 10 none false
      = { emptyUrlResults with pagesCrawled := 1 } :=
  (c7_amended c7Site "https://www.bazaraki.com/search" 10 none false (by decide)).1
    { adLinks := [], nextHref := none } (by decide) rfl rfl

/-- Non-empty all-digit string; the shape of every id `extractAdId`
returns. -/
def isDigitStr (s : String) : Prop :=
  s.toList ≠ [] ∧ ∀ c ∈ s.toList, c.isDigit = true

theorem takeDigits_all (s : List Char) : ∀ c ∈ takeDigits s, c.isDigit = true := by
  induction s with
  | nil =>
    intro c hc
    cases hc
  | cons a s ih =>
    intro c hc
    rw [takeDigits] at hc
    by_cases ha : a.isDigit = true
    · rw [if_pos ha] at hc
      rcases List.mem_cons.mp hc with rfl | hc'
      · exact ha
      · exact ih c hc'
    · rw [if_neg ha] at hc
      cases hc

theorem matchAdvUnderscore_digits :
    ∀ s ds, matchAdvUnderscore s = some ds → ds ≠ [] ∧ ∀ c ∈ ds, c.isDigit = true := by
  intro s
  induction s with
  | nil =>
    intro ds h
    cases h
  | cons a s ih =>
    intro ds h
    rw [matchAdvUnderscore] at h
    split at h
    · split at h
      · next hcond =>
        injection h with h1
        subst h1
        refine ⟨?_, takeDigits_all _⟩
        intro hnil
        rw [hnil] at hcond
        simp at hcond
      · exact ih ds h
    · exact ih ds h

theorem matchTrailingNum_digits (s ds : List Char) (h : matchTrailingNum s = some ds) :
    ds ≠ [] ∧ ∀ c ∈ ds, c.isDigit = true := by
  rw [matchTrailingNum] at h
  split at h
  · next hcond =>
    injection h with h1
    subst h1
    constructor
    · intro hnil
      rw [List.reverse_eq_nil_iff] at hnil
      rw [hnil] at hcond
      simp at hcond
    · intro c hc
      rw [List.mem_reverse] at hc
      exact takeDigits_all _ c hc
  · cases h

theorem matchIdParam_digits :
    ∀ s ds, matchIdParam s = some ds → ds ≠ [] ∧ ∀ c ∈ ds, c.isDigit = true := by
  intro s
  induction s with
  | nil =>
    intro ds h
    cases h
  | cons a s ih =>
    intro ds h
    rw [matchIdParam] at h
    split at h
    · split at h
      · next hcond =>
        injection h with h1
        subst h1
        refine ⟨?_, takeDigits_all _⟩
        intro hnil
        rw [hnil] at hcond
        cases hcond
      · exact ih ds h
    · exact ih ds h

theorem extractAdId_digits (u s : String) (h : extractAdId u = some s) : isDigitStr s := by
  rw [extractAdId] at h
  split at h
  · cases h
  · split at h
    · next ds hm =>
      injection h with h1
      subst h1
      obtain ⟨hne, hall⟩ := matchAdvUnderscore_digits _ ds hm
      exact ⟨hne, hall⟩
    · split at h
      · next ds hm =>
        injection h with h1
        subst h1
        obtain ⟨hne, hall⟩ := matchTrailingNum_digits _ ds hm
        exact ⟨hne, hall⟩
      · split at h
        · next ds hm =>
          injection h with h1
          subst h1
          obtain ⟨hne, hall⟩ := matchIdParam_digits _ ds hm
          exact ⟨hne, hall⟩
        · cases h

theorem digit_not_ws (c : Char) (h : c.isDigit = true) : c.isWhitespace = false := by
  by_cases hw : c.isWhitespace = true
  · exfalso
    have hc : ((c = ' ' ∨ c = '\t') ∨ c = '\r') ∨ c = '\n' := by
      simpa [Char.isWhitespace] using hw
    rcases hc with ((rfl | rfl) | rfl) | rfl <;> exact absurd h (by decide)
  · cases hb : c.isWhitespace with
    | false => rfl
    | true => exact absurd hb hw

theorem dropWhile_eq_self_of_not (p : Char → Bool) (l : List Char)
    (h : ∀ c ∈ l, p c = false) : l.dropWhile p = l := by
  cases l with
  | nil => rfl
  | cons c cs => simp [List.dropWhile_cons, h c (List.mem_cons_self c cs)]

theorem jsTrim_eq_of_digits (s : String) (h : isDigitStr s) : jsTrim s = s := by
  obtain ⟨hne, hall⟩ := h
  rw [jsTrim]
  have h1 : s.toList.dropWhile Char.isWhitespace = s.toList :=
    dropWhile_eq_self_of_not _ _ (fun c hc => digit_not_ws c (hall c hc))
  rw [h1]
  have h2 : s.toList.reverse.dropWhile Char.isWhitespace = s.toList.reverse :=
    dropWhile_eq_self_of_not _ _ (fun c hc => digit_not_ws c (hall c (List.mem_reverse.mp hc)))
  rw [h2, List.reverse_reverse, mk_toList]

/-- Invariant of the crawl state for a discovery call with `skipKnown = true`
and known ids `ks`: no `newUrls` entry extracts to a known id; every
collected URL whose extracted id is known has that id recorded in
`skippedIds` and is excluded from `newUrls`; `idsByUrlMap` is
extraction-consistent; `skippedIds` holds only known ids, is duplicate-free
and holds only extracted (all-digit) ids; and `newUrls` is contained in the
deduplication set. -/
def crawlInv (ks : List String) (st : UrlResults × List String) : Prop :=
  (∀ u ∈ st.1.newUrls, ∀ i, extractAdId u = some i → i ∉ ks) ∧
  (∀ u ∈ st.1.allUrls, ∀ i, extractAdId u = some i → i ∈ ks →
    i ∈ st.1.skippedIds ∧ u ∉ st.1.newUrls) ∧
  (∀ p ∈ st.1.idsByUrlMap, extractAdId p.1 = some p.2) ∧
  (∀ i ∈ st.1.skippedIds, i ∈ ks) ∧
  st.1.skippedIds.Nodup ∧
  (∀ i ∈ st.1.skippedIds, isDigitStr i) ∧
  (∀ u ∈ st.1.newUrls, u ∈ st.2)

/-- The part of `crawlInv` about the returned result object alone. -/
def resultInv (ks : List String) (r : UrlResults) : Prop :=
  (∀ u ∈ r.newUrls, ∀ i, extractAdId u = some i → i ∉ ks) ∧
  (∀ u ∈ r.allUrls, ∀ i, extractAdId u = some i → i ∈ ks →
    i ∈ r.skippedIds ∧ u ∉ r.newUrls) ∧
  (∀ p ∈ r.idsByUrlMap, extractAdId p.1 = some p.2) ∧
  (∀ i ∈ r.skippedIds, i ∈ ks) ∧
  r.skippedIds.Nodup ∧
  (∀ i ∈ r.skippedIds, isDigitStr i)

theorem toResultInv (ks : List String) (r : UrlResults) (seen : List String)
    (h : crawlInv ks (r, seen)) : resultInv ks r :=
  ⟨h.1, h.2.1, h.2.2.1, h.2.2.2.1, h.2.2.2.2.1, h.2.2.2.2.2.1⟩

set_option maxHeartbeats 1000000 in
theorem processAdLink_inv (ks : List String) (st : UrlResults × List String) (href : String)
    (h : crawlInv ks st) : crawlInv ks (processAdLink (some ks) true st href) := by
  obtain ⟨r, seen⟩ := st
  obtain ⟨hA, hB, hC, hD, hF, hG, hE⟩ := h
  simp only [processAdLink]
  split
  · exact ⟨hA, hB, hC, hD, hF, hG, hE⟩
  · split
    · exact ⟨hA, hB, hC, hD, hF, hG, hE⟩
    · next hseen =>
      split
      · next i hx =>
        split
        · next hcond =>
          have hk : i ∈ ks := by simpa using hcond
          refine ⟨hA, ?_, hC, ?_, ?_, ?_, ?_⟩
          · intro u hu j hj hjk
            rcases List.mem_append.mp hu with hu' | hu'
            · obtain ⟨hs, hn⟩ := hB u hu' j hj hjk
              exact ⟨(mem_insertIfAbsent _ _ _).mpr (Or.inl hs), hn⟩
            · rw [List.mem_singleton] at hu'
              subst hu'
              rw [hx] at hj
              injection hj with hj
              subst hj
              refine ⟨(mem_insertIfAbsent _ _ _).mpr (Or.inr rfl), fun hmem => ?_⟩
              exact hseen (hE _ hmem)
          · intro j hj
            rcases (mem_insertIfAbsent _ _ _).mp hj with hj' | hj'
            · exact hD j hj'
            · exact hj' ▸ hk
          · exact nodup_insertIfAbsent _ _ hF
          · intro j hj
            rcases (mem_insertIfAbsent _ _ _).mp hj with hj' | hj'
            · exact hG j hj'
            · exact hj' ▸ extractAdId_digits _ i hx
          · intro u hu
            exact List.mem_cons_of_mem _ (hE u hu)
        · next hcond =>
          have hk : i ∉ ks := by simpa using hcond
          refine ⟨?_, ?_, ?_, hD, hF, hG, ?_⟩
          · intro u hu j hj
            rcases List.mem_append.mp hu with hu' | hu'
            · exact hA u hu' j hj
            · rw [List.mem_singleton] at hu'
              subst hu'
              rw [hx] at hj
              injection hj with hj
              subst hj
              exact hk
          · intro u hu j hj hjk
            rcases List.mem_append.mp hu with hu' | hu'
            · obtain ⟨hs, hn⟩ := hB u hu' j hj hjk
              refine ⟨hs, fun hmem => ?_⟩
              rcases List.mem_append.mp hmem with hm | hm
              · exact hn hm
              · rw [List.mem_singleton] at hm
                subst hm
                rw [hx] at hj
                injection hj with hj
                subst hj
                exact hk hjk
            · rw [List.mem_singleton] at hu'
              subst hu'
              rw [hx] at hj
              injection hj with hj
              subst hj
              exact absurd hjk hk
          · intro p hp
            rcases List.mem_append.mp hp with hp' | hp'
            · exact hC p hp'
            · rw [List.mem_singleton] at hp'
              subst hp'
              exact hx
          · intro u hu
            rcases List.mem_append.mp hu with hu' | hu'
            · exact List.mem_cons_of_mem _ (hE u hu')
            · rw [List.mem_singleton] at hu'
              subst hu'
              exact List.mem_cons_self _ _
      · next hx =>
        refine ⟨?_, ?_, hC, hD, hF, hG, ?_⟩
        · intro u hu i hi
          rcases List.mem_append.mp hu with hu' | hu'
          · exact hA u hu' i hi
          · rw [List.mem_singleton] at hu'
            subst hu'
            rw [hx] at hi
            cases hi
        · intro u hu i hi hik
          rcases List.mem_append.mp hu with hu' | hu'
          · obtain ⟨hs, hn⟩ := hB u hu' i hi hik
            refine ⟨hs, fun hmem => ?_⟩
            rcases List.mem_append.mp hmem with hm | hm
            · exact hn hm
            · rw [List.mem_singleton] at hm
              subst hm
              rw [hx] at hi
              cases hi
          · rw [List.mem_singleton] at hu'
            subst hu'
            rw [hx] at hi
            cases hi
        · intro u hu
          rcases List.mem_append.mp hu with hu' | hu'
          · exact List.mem_cons_of_mem _ (hE u hu')
          · rw [List.mem_singleton] at hu'
            subst hu'
            exact List.mem_cons_self _ _

theorem foldl_processAdLink_inv (ks : List String) (links : List String) :
    ∀ st, crawlInv ks st →
      crawlInv ks (links.foldl (processAdLink (some ks) true) st) := by
  induction links with
  | nil => intro st h; exact h
  | cons l ls ih => intro st h; exact ih _ (processAdLink_inv ks st l h)

theorem errorUrlResults_resultInv (ks : List String) (msg : String) :
    resultInv ks (errorUrlResults msg) := by
  refine ⟨?_, ?_, ?_, ?_, List.nodup_nil, ?_⟩ <;> intro x hx <;> cases hx

theorem crawlLoop_resultInv (site : String → Option Page) (ks : List String) (maxPages : Nat) :
    ∀ fuel page currentUrl r seen, crawlInv ks (r, seen) →
      resultInv ks (crawlLoop site (some ks) true maxPages fuel page currentUrl r seen) := by
  intro fuel
  induction fuel with
  | zero =>
    intro page currentUrl r seen h
    exact toResultInv ks r seen h
  | succ fuel ih =>
    intro page currentUrl r seen h
    simp only [crawlLoop]
    split
    · split
      · exact errorUrlResults_resultInv ks _
      · exact toResultInv ks _ seen h
    · next pg hpg =>
      have hst := foldl_processAdLink_inv ks pg.adLinks
        ({ r with pagesCrawled := r.pagesCrawled + 1 }, seen) h
      split
      · split
        · exact ih _ _ _ _ hst
        · exact toResultInv ks _ _ hst
      · exact toResultInv ks _ _ hst

theorem crawlInv_start (ks : List String) : crawlInv ks (emptyUrlResults, []) := by
  refine ⟨?_, ?_, ?_, ?_, List.nodup_nil, ?_, ?_⟩ <;> intro x hx <;> cases hx

theorem assocGetRev_mem (k v : String) :
    ∀ m : List (String × String), assocGetRev m k = some v → (k, v) ∈ m := by
  intro m
  induction m with
  | nil =>
    intro h
    cases h
  | cons p m ih =>
    intro h
    rw [assocGetRev] at h
    by_cases hp : p.1 = k
    · rw [if_pos hp] at h
      injection h with h2
      have hkv : (k, v) = p := by
        obtain ⟨p1, p2⟩ := p
        simp only at hp h2
        rw [hp, h2]
      rw [hkv]
      exact List.mem_cons_self p m
    · rw [if_neg hp] at h
      exact List.mem_cons_of_mem p (ih h)

theorem assocGet_mem (m : List (String × String)) (k v : String)
    (h : assocGet m k = some v) : (k, v) ∈ m :=
  List.mem_reverse.mp (assocGetRev_mem k v m.reverse h)

theorem jsOrString_some (a b : Option String) (v : String) (h : jsOrString a b = some v) :
    a = some v ∨ b = some v := by
  rw [jsOrString.eq_def] at h
  split at h
  · next s =>
    split at h
    · exact Or.inr h
    · exact Or.inl h
  · exact Or.inr h

theorem newListingPair_some (m : List (String × String)) (u : String) (q : String × String)
    (h : newListingPair m u = some q) :
    q.1 = u ∧ jsOrString (assocGet m u) (extractAdId u) = some q.2 := by
  rw [newListingPair] at h
  split at h
  · next i heq =>
    split at h
    · cases h
    · injection h with h2
      subst h2
      exact ⟨rfl, heq⟩
  · cases h

/-- Claim C2: in a discovery call with `skipKnown = true` and known id set
`ks`, every collected listing URL whose extracted id is known has the id
recorded in `skippedIds` and is excluded from `newUrls`; no `newUrls` entry
extracts to a known id; and since the detail-extraction loop of
`scrapeListings` iterates exactly over the `newListingUrls` pairs derived
from `newUrls`, no detail fetch is ever issued for a known id during the
run. -/
theorem c2_theorem (site : String → Option Page) (url : String) (maxPages : Nat)
    (ks : List String) :
    (∀ u ∈ (extractListingUrls site url maxPages (some ks) true).allUrls,
      ∀ i, extractAdId u = some i → i ∈ ks →
        i ∈ (extractListingUrls site url maxPages (some ks) true).skippedIds ∧
        u ∉ (extractListingUrls site url maxPages (some ks) true).newUrls) ∧
    (∀ u ∈ (extractListingUrls site url maxPages (some ks) true).newUrls,
      ∀ i, extractAdId u = some i → i ∉ ks) ∧
    (∀ q ∈ newListingUrlsOf (extractListingUrls site url maxPages (some ks) true),
      q.2 ∉ ks) := by
  have hinv : resultInv ks (extractListingUrls site url maxPages (some ks) true) :=
    crawlLoop_resultInv site ks maxPages maxPages 1 url emptyUrlResults []
      (crawlInv_start ks)
  refine ⟨hinv.2.1, hinv.1, ?_⟩
  intro q hq
  rw [newListingUrlsOf, List.mem_filterMap] at hq
  obtain ⟨u, hu, hfu⟩ := hq
  obtain ⟨hq1, hjs⟩ := newListingPair_some _ u q hfu
  rcases jsOrString_some _ _ _ hjs with hga | hx
  · have hpair : (u, q.2) ∈ (extractListingUrls site url maxPages (some ks) true).idsByUrlMap :=
      assocGet_mem _ _ _ hga
    have hx : extractAdId u = some q.2 := hinv.2.2.1 (u, q.2) hpair
    exact hinv.1 u hu q.2 hx
  · exact hinv.1 u hu q.2 hx

/-- A site with one results page containing one known and one fresh ad
link. -/
def c2Site : String → Option Page :=
  fun u =>
    if u = "https://www.bazaraki.com/search" then
      some { adLinks := ["/adv/123_a/", "/adv/456_b/"], nextHref := none }
    else none

/-- Claim C2 witness: on the concrete crawl with `knownIds = {"123"}`, id
`123` is recorded as skipped, its URL is collected but not in `newUrls`, and
no detail-fetch pair carries a known id. -/
theorem c2_witness :
    "123" ∈ (extractListingUrls c2Site "https://www.bazaraki.com/search" 10
        (some ["123"]) true).skippedIds ∧
    "https://www.bazaraki.com/adv/123_a/" ∉
      (extractListingUrls c2Site "https://www.bazaraki.com/search" 10
        (some ["123"]) true).newUrls ∧
    (∀ q ∈ newListingUrlsOf (extractListingUrls c2Site "https://www.bazaraki.com/search" 10
        (some ["123"]) true), q.2 ∉ ["123"]) := by
  have h := c2_theorem c2Site "https://www.bazaraki.com/search" 10 ["123"]
  refine ⟨(h.1 "https://www.bazaraki.com/adv/123_a/" (by decide) "123" (by decide) (by decide)).1,
    (h.1 "https://www.bazaraki.com/adv/123_a/" (by decide) "123" (by decide) (by decide)).2, h.2.2⟩

/-- Price object as assembled by `extractPrice` / the failure branch of the
detail extractor.  The JS number is modelled as `Nat` (no claim computes with
a successful price value; the failure branch uses `0`); the success-only
`currency`/`normalized` fields are elided. -/
structure Price where
  text : String
  value : Nat
  deriving Repr, DecidableEq

/-- A successfully fetched and parsed listing page, abstracted to the
outputs of the per-field selector helpers that `extractListingDetails`
(lines 802-930) calls: `titleText` is the raw text of the first matching
title element (`none` when no selector matches), `ogDescription` the
`og:description` content, and `price`, `location`, `description`,
`propDetails`, `images` the results of `extractPrice`, `extractLocation`,
`extractDescription`, `extractPropertyDetails`, `extractImages` — ordinary
best-effort parsers that never throw (each has its own catch-all).
`characteristics` holds the raw key/value texts of the
`.announcement-characteristics` items (lines 839-847). -/
structure DetailPage where
  titleText : Option String
  ogDescription : Option String
  price : Price
  location : String
  description : String
  propDetails : List (String × String)
  images : List String
  characteristics : List (String × String)
  deriving Repr, DecidableEq

/-- The object returned by `extractListingDetails`: every field is optional
so that presence/absence of the source object's properties is observable.
`scrapedAt` records only the presence of the timestamp. -/
structure DetailRecord where
  id : Option String
  url : Option String
  error : Option String
  title : Option String
  fullTitle : Option String
  price : Option Price
  location : Option String
  description : Option String
  details : Option (List (String × String))
  images : Option (List String)
  characteristics : Option (List (String × String))
  constructionYear : Option String
  furnishing : Option String
  petsAllowed : Option Bool
  plotArea : Option String
  propertyStatus : Option String
  availability : Option String
  scrapedAt : Option Unit
  deriving Repr, DecidableEq

/-- JS `key.replace(/:$/, '')`. -/
def stripTrailingColon (s : List Char) : List Char :=
  match s.reverse with
  | ':' :: r => r.reverse
  | _ => s

/-- JS `.replace(/\s+/g, '-')`: each maximal whitespace run becomes one
dash; the flag says whether the previous character was whitespace. -/
def wsRunsToDashAux : Bool → List Char → List Char
  | _, [] => []
  | prevWs, c :: cs =>
    if c.isWhitespace then
      (if prevWs then [] else ['-']) ++ wsRunsToDashAux true cs
    else c :: wsRunsToDashAux false cs

/-- JS `.replace(/[^a-z0-9-]/g, '')` applied after lowercasing. -/
def keepKebabChars (s : List Char) : List Char :=
  s.filter (fun c => ('a' ≤ c && c ≤ 'z') || c.isDigit || c == '-')

/-- The characteristics-key normalization of lines 846-852:
trim, strip one trailing colon, lowercase, whitespace runs to dashes, then
drop the remaining non-kebab characters. -/
def kebabKey (s : String) : String :=
  String.mk (keepKebabChars (wsRunsToDashAux false
    ((stripTrailingColon (jsTrim s).toList).map Char.toLower)))

/-- Match of the price regex `\d+[\.,]?\d*\s*(?:€|EUR|\$)` at the start of
`s`, returning the remainder after the match. -/
def matchPriceToken (s : List Char) : Option (List Char) :=
  let ds := takeDigits s
  if ds.isEmpty then none
  else
    let r1 := dropDigits s
    let r2 :=
      match r1 with
      | c :: cs => if c = '.' || c = ',' then dropDigits cs else r1
      | [] => r1
    let r3 := r2.dropWhile Char.isWhitespace
    match r3 with
    | '€' :: rest => some rest
    | '$' :: rest => some rest
    | 'E' :: 'U' :: 'R' :: rest => some rest
    | _ => none

/-- Global replacement of the price regex by the empty string (line 828),
scanning left to right; the fuel (initialized to the string length, which a
successful match of at least one character can never exhaust) makes the
recursion structural. -/
def stripPriceTokensAux : Nat → List Char → List Char
  | 0, s => s
  | _ + 1, [] => []
  | fuel + 1, c :: cs =>
    match matchPriceToken (c :: cs) with
    | some rest => stripPriceTokensAux fuel rest
    | none => c :: stripPriceTokensAux fuel cs

/-- JS `title.replace(/\d+[\.,]?\d*\s*(?:€|EUR|\$)/g, '')`. -/
def stripPriceTokens (s : List Char) : List Char :=
  stripPriceTokensAux s.length s

/-- Lowercasing of a string (JS `.toLowerCase()` on the ASCII texts
involved). -/
def toLowerStr (s : String) : String :=
  String.mk (s.toList.map Char.toLower)

/-- The effective `extractListingDetails` (lines 802-930, the second of the
two declarations of that name, in force by hoisting), over a fetch/parse
oracle (`none` = the `try` block threw: network error, timeout, or parse
error).  On success all record fields are populated from the page; on any
failure the catch (lines 916-929) returns the placeholder record in which
`id`, `url`, `error` are populated together with placeholder `title`,
`price`, `details`, `description`, `images`, `scrapedAt`, while all other
fields are absent.  The dynamic error message text is not modelled. -/
def extractListingDetails (detail : String → Option DetailPage) (url : String) : DetailRecord :=
  match detail url with
  | some pg =>
    let adId := (extractAdId url).getD "unknown"
    let title := match pg.titleText with
      | some t => jsTrim t
      | none => "Keine Beschreibung"
    let metaDescription := pg.ogDescription.getD ""
    let cleanTitle := jsTrim (String.mk (stripPriceTokens title.toList))
    let characteristics := pg.characteristics.map (fun p => (kebabKey p.1, jsTrim p.2))
    { id := some adId
      url := some url
      error := none
      title := some cleanTitle
      fullTitle := some title
      price := some pg.price
      location := some pg.location
      description := some (if pg.description = "" then metaDescription else pg.description)
      details := some pg.propDetails
      images := some pg.images
      characteristics := some characteristics
      constructionYear := some ((assocGet characteristics "construction-year").getD "")
      furnishing := some ((assocGet characteristics "furnishing").getD "")
      petsAllowed := some (match assocGet characteristics "pets" with
        | some v => containsSub "allowed".toList (toLowerStr v).toList
        | none => false)
      plotArea := some ((assocGet characteristics "plot-area").getD "")
      propertyStatus := some ((assocGet characteristics "status").getD "")
      availability := some ((assocGet characteristics "availability").getD "")
      scrapedAt := some () }
  | none =>
    { id := some ((extractAdId url).getD "error")
      url := some url
      error := some "request failed"
      title := some "Fehler beim Laden der Anzeige"
      fullTitle := none
      price := some { text := "Unbekannt", value := 0 }
      location := none
      description := some ""
      details := some []
      images := some []
      characteristics := none
      constructionYear := none
      furnishing := none
      petsAllowed := none
      plotArea := none
      propertyStatus := none
      availability := none
      scrapedAt := some () }

/-- Claim C9 counterexample: on a failed fetch the effective detail
extractor does not return a record with only `id`, `url`, `error`
populated — the catch at lines 916-929 also populates placeholder `title`
(`'Fehler beim Laden der Anzeige'`), `price`, `details`, `description`,
`images` and `scrapedAt`. -/
theorem c9_counterexample :
    (extractListingDetails (fun _ => none)
      "https://www.bazaraki.com/adv/123_x/").title = some "Fehler beim Laden der Anzeige" ∧
    (extractListingDetails (fun _ => none)
      "https://www.bazaraki.com/adv/123_x/").price = some { text := "Unbekannt", value := 0 } ∧
    (extractListingDetails (fun _ => none)
      "https://www.bazaraki.com/adv/123_x/").title ≠ none := by
  refine ⟨by decide, by decide, by decide⟩

/-- Claim C9 amended: the detail extractor never throws — for every URL and
every failure (modelled by the oracle returning `none`) it returns exactly
the placeholder record: `id` (the extracted id, or `'error'` when
extraction fails), `url` and `error` populated, the placeholder `title`,
`price`, `details`, empty `description`/`images` and a `scrapedAt`
timestamp, with all remaining optional fields absent. -/
theorem c9_amended (detail : String → Option DetailPage) (url : String)
    (h : detail url = none) :
    extractListingDetails detail url =
      { id := some ((extractAdId url).getD "error")
        url := some url
        error := some "request failed"
        title := some "Fehler beim Laden der Anzeige"
        fullTitle := none
        price := some { text := "Unbekannt", value := 0 }
        location := none
        description := some ""
        details := some []
        images := some []
        characteristics := none
        constructionYear := none
        furnishing := none
        petsAllowed := none
        plotArea := none
        propertyStatus := none
        availability := none
        scrapedAt := some () } := by
  rw [extractListingDetails, h]

/-- Claim C9 witness: the amended statement at a concrete URL whose fetch
fails; the id is still extracted from the URL. -/
theorem c9_witness :
    extractListingDetails (fun _ => none) "https://www.bazaraki.com/adv/55_t/" =
      { id := some "55"
        url := some "https://www.bazaraki.com/adv/55_t/"
        error := some "request failed"
        title := some "Fehler beim Laden der Anzeige"
        fullTitle := none
        price := some { text := "Unbekannt", value := 0 }
        location := none
        description := some ""
        details := some []
        images := some []
        characteristics := none
        constructionYear := none
        furnishing := none
        petsAllowed := none
        plotArea := none
        propertyStatus := none
        availability := none
        scrapedAt := some () } := by
  rw [c9_amended (fun _ => none) "https://www.bazaraki.com/adv/55_t/" rfl]
  decide

/-- One outbound message event of the notification dispatcher, abstracting
the rendered text: `summary` is the statistics message (lines 1799-1864),
`tooMany` the skip message of line 1871, `firstRunForcedNote` the note of
line 1879, `newListingsHeader` the announcement of line 1885,
`listingDetail i` one `sendSingleListingMessage` call (line 1893, 1-based
index), `removedSummary` the aggregate removed-listings message (lines
1905-1915) and `removedCountOnly` the count-only fallback (line 1918). -/
inductive TgMsg where
  | summary
  | tooMany (newCount : Nat)
  | firstRunForcedNote
  | newListingsHeader (newCount : Nat)
  | listingDetail (idx : Nat)
  | removedSummary
  | removedCountOnly (n : Nat)
  deriving Repr, DecidableEq

/-- Environment of the dispatcher: `SKIP_TELEGRAM === 'true'`, whether both
`TELEGRAM_BOT_TOKEN` and `TELEGRAM_CHAT_ID` are configured, and
`FORCE_NOTIFICATION === 'true'`. -/
structure NotifyEnv where
  skipTelegram : Bool
  botConfigured : Bool
  forceNotificationEnv : Bool
  deriving Repr, DecidableEq

/-- The change object consumed by the dispatcher: a diff result plus the
optional `error` field the handler attaches on failure. -/
structure Changes where
  currentListings : List Listing
  newListings : List Listing
  removedListings : List Listing
  isFirstRun : Bool
  error : Option String
  deriving Repr, DecidableEq

/-- `sendTelegramNotification` (lines 1759-1927), modelled as the ordered
list of outbound message events plus the returned boolean.  Message texts,
inter-message delays and the image uploads following each per-listing
message are abstracted; Telegram API failures (which would make the catch at
lines 1923-1926 return `false`) are outside the model, so the returned
boolean covers the non-throwing paths. -/
def sendTelegramNotificationRun (env : NotifyEnv) (changes : Changes) (force : Bool) :
    List TgMsg × Bool :=
  if env.skipTelegram then ([], true)
  else if !env.botConfigured then ([], false)
  else if changes.isFirstRun && !force then ([], true)
  else
    let newCount := changes.newListings.length
    let removedCount := changes.removedListings.length
    let forceN := env.forceNotificationEnv || force
    let m0 := [TgMsg.summary]
    if (changes.isFirstRun && !forceN) || (decide (newCount > 20) && !forceN) then
      (m0 ++ [TgMsg.tooMany newCount], true)
    else
      let m1 := if changes.isFirstRun && forceN then m0 ++ [TgMsg.firstRunForcedNote] else m0
      let m2 :=
        if decide (newCount > 0) then
          (if decide (newCount > 1) then m1 ++ [TgMsg.newListingsHeader newCount] else m1)
            ++ (List.range newCount).map (fun i => TgMsg.listingDetail (i + 1))
        else m1
      let m3 :=
        if decide (removedCount > 0) && decide (removedCount ≤ 20) then
          m2 ++ [TgMsg.removedSummary]
        else if decide (removedCount > 0) && decide (removedCount > 20) then
          m2 ++ [TgMsg.removedCountOnly removedCount]
        else m2
      (m3, true)

/-- Claim C8: on a configured, non-skipped, non-first run with more than 20
new listings and no force flag (neither the event flag nor the
`FORCE_NOTIFICATION` environment toggle), the dispatcher sends exactly one
summary message followed by one "too many" message — zero per-listing detail
messages — and reports successful delivery. -/
theorem c8_theorem (env : NotifyEnv) (changes : Changes) (force : Bool)
    (h1 : env.skipTelegram = false) (h2 : env.botConfigured = true)
    (h3 : env.forceNotificationEnv = false) (h4 : force = false)
    (h5 : changes.isFirstRun = false) (h6 : changes.newListings.length > 20) :
    sendTelegramNotificationRun env changes force
      = ([TgMsg.summary, TgMsg.tooMany changes.newListings.length], true) := by
  obtain ⟨s, b, fenv⟩ := env
  obtain ⟨cl, nl, rl, fr, er⟩ := changes
  simp only at h1 h2 h3 h5 h6 ⊢
  subst h1
  subst h2
  subst h3
  subst h4
  subst h5
  simp [sendTelegramNotificationRun, h6]

/-- Changes object for the C8 witness: 21 new listings. -/
def c8Changes : Changes :=
  { currentListings := [],
    newListings := (List.range 21).map (fun n =>
      { id := some (Nat.repr (n + 1)), url := "", title := none, propertyType := none }),
    removedListings := [], isFirstRun := false, error := none }

/-- Claim C8 witness: the oversized-batch dispatch evaluated on a concrete
run with 21 new listings. -/
theorem c8_witness :
    sendTelegramNotificationRun
        { skipTelegram := false, botConfigured := true, forceNotificationEnv := false }
        c8Changes false
      = ([TgMsg.summary, TgMsg.tooMany 21], true) := by
  have h := c8_theorem
    { skipTelegram := false, botConfigured := true, forceNotificationEnv := false }
    c8Changes false rfl rfl rfl rfl rfl (by decide)
  rw [h]
  decide

/-- The raw previous-id set of `scrapeListings` (line 260):
`new Set(previousResults.listings.map(l => l.id))`, with the `undefined`
entries contributed by id-less listings elided (they can never equal an
extracted id string). -/
def rawIdsOf (ls : List Listing) : List String :=
  ls.foldl (fun acc l => match l.id with | some i => insertIfAbsent acc i | none => acc) []

/-- One step of building `previousListingsById` (lines 265-272): JS object
assignment, so a later listing with the same id overwrites an earlier
one. -/
def prevByIdStep (i : String) (acc : Option Listing) (l : Listing) : Option Listing :=
  if l.id == some i then some l else acc

/-- Lookup in `previousListingsById`. -/
def prevById (ls : List Listing) (i : String) : Option Listing :=
  ls.foldl (prevByIdStep i) none

/-- The JS object-spread merge `{...listing, ...details}` of line 433,
restricted to the fields `Listing` tracks: a field present on the detail
record overrides the base value; `propertyType` is never present on detail
records and is kept from the base. -/
def mergeListing (base : Listing) (d : DetailRecord) : Listing :=
  { id := if d.id.isSome then d.id else base.id,
    url := d.url.getD base.url,
    title := if d.title.isSome then d.title else base.title,
    propertyType := base.propertyType }

/-- The contribution of one property type to `allCurrentListings`
(lines 326-449): discovery with `maxPages = 10` and early skipping against
the previous ids, then the previous record of every skipped id is reused
(lines 405-409), then one detail-extracted listing per `newListingUrls` pair
is appended (lines 417-444; the `try`/`catch` around the loop body never
fires because `extractListingDetails` never throws).  The base record of
line 424 carries `id`, `url`, `propertyType` (and a `scrapedAt` timestamp,
elided). -/
def typeCurrentListings (site : String → Option Page) (detail : String → Option DetailPage)
    (previous : List Listing) (knownIds : List String) (searchUrl : String)
    (ptype : String) : List Listing :=
  let urlResults := extractListingUrls site searchUrl 10 (some knownIds) true
  let unchanged := urlResults.skippedIds.filterMap (fun i => prevById previous i)
  let newOnes := (newListingUrlsOf urlResults).map (fun q =>
    mergeListing { id := some q.2, url := q.1, title := none, propertyType := some ptype }
      (extractListingDetails detail q.1))
  unchanged ++ newOnes

/-- The `allCurrentListings` array assembled by `scrapeListings`
(lines 244-531) across all property types, as the concatenation of the
per-type contributions in loop order.  `searchUrlFor` abstracts the
hard-coded per-type search URLs of lines 316-323; statistics, logging,
removed-id bookkeeping, politeness delays and the debug test-data branch are
elided. -/
def scrapeAllCurrentListings (site : String → Option Page) (detail : String → Option DetailPage)
    (searchUrlFor : String → String) (types : List String) (previous : List Listing) :
    List Listing :=
  (types.map (fun t => typeCurrentListings site detail previous (rawIdsOf previous)
    (searchUrlFor t) t)).flatten

/-- A results page offering the same advertisement under two URL shapes. -/
def c5Site : String → Option Page :=
  fun u =>
    if u = "https://www.bazaraki.com/search" then
      some { adLinks := ["/adv/123_a/", "/adv/123/"], nextHref := none }
    else none

/-- The full current listing list of the duplicate-id run. -/
def c5AllCurrent : List Listing :=
  scrapeAllCurrentListings c5Site (fun _ => none)
    (fun _ => "https://www.bazaraki.com/search") ["apartments-flats"] []

/-- Claim C5 counterexample: when one page offers the same advertisement
under two URL shapes (`/adv/123_a/` and `/adv/123/`), both URLs survive
URL-level deduplication, both are detail-fetched, and the persisted snapshot
contains two listings with the same id `123` — the uniqueness invariant
fails. -/
theorem c5_counterexample :
    ((saveAndCompareResults c5AllCurrent none false).savedState.map (fun l => l.id))
      = [some "123", some "123"] ∧
    ¬ ((saveAndCompareResults c5AllCurrent none false).savedState.map
        (fun l => l.id)).Nodup := by
  refine ⟨by decide, by decide⟩

theorem map_congr_mem {α β : Type} (f g : α → β) :
    ∀ l : List α, (∀ a ∈ l, f a = g a) → l.map f = l.map g := by
  intro l
  induction l with
  | nil =>
    intro _
    rfl
  | cons a l ih =>
    intro h
    rw [List.map_cons, List.map_cons, h a (List.mem_cons_self a l),
      ih (fun b hb => h b (List.mem_cons_of_mem a hb))]

theorem prevByIdAux (i : String) :
    ∀ (ls : List Listing) (acc : Option Listing),
      (∀ l, acc = some l → l.id = some i) →
      ∀ l, ls.foldl (prevByIdStep i) acc = some l → l.id = some i := by
  intro ls
  induction ls with
  | nil =>
    intro acc hacc l h
    exact hacc l h
  | cons l0 ls ih =>
    intro acc hacc l h
    rw [List.foldl_cons] at h
    refine ih _ ?_ l h
    intro l' h'
    rw [prevByIdStep] at h'
    split at h'
    · next heq =>
      injection h' with h2
      subst h2
      exact eq_of_beq heq
    · exact hacc l' h'

theorem prevById_id (ls : List Listing) (i : String) (l : Listing)
    (h : prevById ls i = some l) : l.id = some i :=
  prevByIdAux i ls none (fun _ h' => by cases h') l h

theorem filterMap_prevById_ids (prev : List Listing) :
    ∀ is : List String,
      ((is.filterMap (fun i => prevById prev i)).map (fun l => l.id))
        = (is.filter (fun i => (prevById prev i).isSome)).map (fun i => some i) := by
  intro is
  induction is with
  | nil => rfl
  | cons i is ih =>
    cases h : prevById prev i with
    | none => simp [List.filterMap_cons, List.filter_cons, h, ih]
    | some l => simp [List.filterMap_cons, List.filter_cons, h, prevById_id prev i l h, ih]

theorem newListingUrlsOf_spec (site : String → Option Page) (url : String) (maxPages : Nat)
    (ks : List String) :
    ∀ q ∈ newListingUrlsOf (extractListingUrls site url maxPages (some ks) true),
      extractAdId q.1 = some q.2 ∧ q.2 ∉ ks := by
  have hinv : resultInv ks (extractListingUrls site url maxPages (some ks) true) :=
    crawlLoop_resultInv site ks maxPages maxPages 1 url emptyUrlResults [] (crawlInv_start ks)
  intro q hq
  rw [newListingUrlsOf, List.mem_filterMap] at hq
  obtain ⟨u, hu, hfu⟩ := hq
  obtain ⟨q1, q2⟩ := q
  obtain ⟨hq1, hjs⟩ := newListingPair_some _ u _ hfu
  simp only at hq1 hjs ⊢
  subst hq1
  rcases jsOrString_some _ _ _ hjs with hga | hx
  · have hx : extractAdId q1 = some q2 := hinv.2.2.1 (q1, q2) (assocGet_mem _ _ _ hga)
    exact ⟨hx, hinv.1 q1 hu q2 hx⟩
  · exact ⟨hx, hinv.1 q1 hu q2 hx⟩

theorem merged_id (detail : String → Option DetailPage) (base : Listing) (u i : String)
    (h : extractAdId u = some i) :
    (mergeListing base (extractListingDetails detail u)).id = some i := by
  rw [mergeListing, extractListingDetails]
  cases hd : detail u with
  | some pg => simp [h]
  | none => simp [h]

theorem typeCurrent_ids (site : String → Option Page) (detail : String → Option DetailPage)
    (previous : List Listing) (ks : List String) (surl ptype : String) :
    (typeCurrentListings site detail previous ks surl ptype).map (fun l => l.id)
      = ((extractListingUrls site surl 10 (some ks) true).skippedIds.filter
          (fun i => (prevById previous i).isSome)).map (fun i => some i)
        ++ (newListingUrlsOf (extractListingUrls site surl 10 (some ks) true)).map
            (fun q => some q.2) := by
  simp only [typeCurrentListings]
  rw [List.map_append, filterMap_prevById_ids]
  congr 1
  rw [List.map_map]
  apply map_congr_mem
  intro q hq
  obtain ⟨hx, _⟩ := newListingUrlsOf_spec site surl 10 ks q hq
  exact merged_id detail _ q.1 q.2 hx

theorem typeCurrent_ids_nodup (site : String → Option Page) (detail : String → Option DetailPage)
    (previous : List Listing) (ks : List String) (surl ptype : String)
    (hnew : ((newListingUrlsOf (extractListingUrls site surl 10 (some ks) true)).map
        Prod.snd).Nodup) :
    ((typeCurrentListings site detail previous ks surl ptype).map (fun l => l.id)).Nodup := by
  rw [typeCurrent_ids]
  have hinv : resultInv ks (extractListingUrls site surl 10 (some ks) true) :=
    crawlLoop_resultInv site ks 10 10 1 surl emptyUrlResults [] (crawlInv_start ks)
  apply List.Nodup.append
  · exact ((hinv.2.2.2.2.1).filter _).map (Option.some_injective _)
  · have hmm : ((newListingUrlsOf (extractListingUrls site surl 10 (some ks) true)).map
        (fun q => some q.2))
        = ((newListingUrlsOf (extractListingUrls site surl 10 (some ks) true)).map
            Prod.snd).map some := by
      rw [List.map_map]
      rfl
    rw [hmm]
    exact hnew.map (Option.some_injective _)
  · intro x hx hy
    rw [List.mem_map] at hx hy
    obtain ⟨i, hi, rfl⟩ := hx
    obtain ⟨q, hq, hqe⟩ := hy
    have hik : i ∈ ks := hinv.2.2.2.1 i (List.mem_of_mem_filter hi)
    have hqk : q.2 ∉ ks := (newListingUrlsOf_spec site surl 10 ks q hq).2
    have : q.2 = i := Option.some_injective _ hqe
    exact hqk (this ▸ hik)

theorem typeCurrent_good (site : String → Option Page) (detail : String → Option DetailPage)
    (previous : List Listing) (ks : List String) (surl ptype : String) :
    ∀ l ∈ typeCurrentListings site detail previous ks surl ptype,
      ∃ i, l.id = some i ∧ isDigitStr i := by
  have hinv : resultInv ks (extractListingUrls site surl 10 (some ks) true) :=
    crawlLoop_resultInv site ks 10 10 1 surl emptyUrlResults [] (crawlInv_start ks)
  intro l hl
  simp only [typeCurrentListings] at hl
  rcases List.mem_append.mp hl with hl | hl
  · rw [List.mem_filterMap] at hl
    obtain ⟨i, hi, hpl⟩ := hl
    exact ⟨i, prevById_id _ _ _ hpl, hinv.2.2.2.2.2 i hi⟩
  · rw [List.mem_map] at hl
    obtain ⟨q, hq, rfl⟩ := hl
    obtain ⟨hx, _⟩ := newListingUrlsOf_spec site surl 10 ks q hq
    exact ⟨q.2, merged_id detail _ q.1 q.2 hx, extractAdId_digits _ _ hx⟩

theorem savedState_ids (listings : List Listing)
    (hgood : ∀ l ∈ listings, ∃ i, l.id = some i ∧ isDigitStr i)
    (prior : Option (List Listing)) (force : Bool) :
    (saveAndCompareResults listings prior force).savedState.map (fun l => l.id)
      = listings.map (fun l => l.id) := by
  show ((listings.map processListing).map createCompactListing).map (fun l => l.id) = _
  rw [List.map_map, List.map_map]
  apply map_congr_mem
  intro l hl
  obtain ⟨i, hid, hdig⟩ := hgood l hl
  have hne : i ≠ "" := by
    intro he
    exact hdig.1 (by rw [he]; rfl)
  show (createCompactListing (processListing l)).id = l.id
  rw [processListing]
  rw [if_pos (by rw [hid]; simp [idTruthy, hne])]
  rw [createCompactListing]
  simp only [hid, Option.getD_some, jsTrim_eq_of_digits i hdig]

/-- Claim C5 amended: the persisted snapshot's listing ids are pairwise
distinct *provided* (a) within each property type the extracted ids of the
detail-fetched URLs are pairwise distinct (no two URL shapes of the same
advertisement on the result pages), and (b) the per-type id lists are
pairwise disjoint across property types (no advertisement listed under two
types).  Under those run conditions the skip/new split makes each type's
unchanged and new ids disjoint, and persistence preserves the ids
unchanged. -/
theorem c5_amended (site : String → Option Page) (detail : String → Option DetailPage)
    (searchUrlFor : String → String) (types : List String) (previous : List Listing)
    (prior : Option (List Listing)) (force : Bool)
    (hnew : ∀ t ∈ types, ((newListingUrlsOf (extractListingUrls site (searchUrlFor t) 10
        (some (rawIdsOf previous)) true)).map Prod.snd).Nodup)
    (hcross : (types.map (fun t => (typeCurrentListings site detail previous (rawIdsOf previous)
        (searchUrlFor t) t).map (fun l => l.id))).Pairwise List.Disjoint) :
    ((saveAndCompareResults (scrapeAllCurrentListings site detail searchUrlFor types previous)
        prior force).savedState.map (fun l => l.id)).Nodup := by
  rw [savedState_ids _ ?good prior force]
  case good =>
    intro l hl
    rw [scrapeAllCurrentListings, List.mem_flatten] at hl
    obtain ⟨sub, hsub, hl⟩ := hl
    rw [List.mem_map] at hsub
    obtain ⟨t, ht, rfl⟩ := hsub
    exact typeCurrent_good site detail previous (rawIdsOf previous) (searchUrlFor t) t l hl
  rw [scrapeAllCurrentListings, List.map_flatten, List.map_map]
  rw [List.nodup_flatten]
  constructor
  · intro l hl
    rw [List.mem_map] at hl
    obtain ⟨t, ht, rfl⟩ := hl
    exact typeCurrent_ids_nodup site detail previous (rawIdsOf previous) (searchUrlFor t) t
      (hnew t ht)
  · exact hcross

/-- Previous snapshot for the C5 witness. -/
def c5WitnessPrev : List Listing :=
  [{ id := some "123", url := "https://www.bazaraki.com/adv/123_a/", title := none,
     propertyType := some "apartments-flats" }]

/-- Claim C5 witness: a run with one known and one fresh advertisement
satisfies both run conditions and persists pairwise-distinct ids. -/
theorem c5_witness :
    ((saveAndCompareResults (scrapeAllCurrentListings c2Site (fun _ => none)
        (fun _ => "https://www.bazaraki.com/search") ["apartments-flats"] c5WitnessPrev)
        none false).savedState.map (fun l => l.id)).Nodup := by
  apply c5_amended c2Site (fun _ => none) (fun _ => "https://www.bazaraki.com/search")
    ["apartments-flats"] c5WitnessPrev none false
  · intro t ht
    rcases List.mem_singleton.mp ht with rfl
    decide
  · refine List.pairwise_map.mpr ?_
    exact List.pairwise_singleton _ _

end ImmoScraper
